import Mathlib

/-!
Verification development for the Fork This Idea Slack bot
(`src/utils.py`, `src/config.py`, `src/firebase_service.py`, `src/handlers.py`).

Strings from the Python source are modelled as `List Char`; machine
integers are modelled as `Int`/`Nat`; the Firebase Realtime Database
collection `/ideas` is modelled as a list of stored records with unique
keys; fallible Python code is modelled with `Except`.
-/

/-! ### Python string primitives (ASCII model) -/

/-- ASCII model of Python `str.upper` on a single character: each of the 26
lowercase ASCII letters maps to its uppercase form, every other character is
unchanged. -/
def pyUpperChar (c : Char) : Char :=
  if c = 'a' then 'A' else if c = 'b' then 'B' else if c = 'c' then 'C'
  else if c = 'd' then 'D' else if c = 'e' then 'E' else if c = 'f' then 'F'
  else if c = 'g' then 'G' else if c = 'h' then 'H' else if c = 'i' then 'I'
  else if c = 'j' then 'J' else if c = 'k' then 'K' else if c = 'l' then 'L'
  else if c = 'm' then 'M' else if c = 'n' then 'N' else if c = 'o' then 'O'
  else if c = 'p' then 'P' else if c = 'q' then 'Q' else if c = 'r' then 'R'
  else if c = 's' then 'S' else if c = 't' then 'T' else if c = 'u' then 'U'
  else if c = 'v' then 'V' else if c = 'w' then 'W' else if c = 'x' then 'X'
  else if c = 'y' then 'Y' else if c = 'z' then 'Z' else c

/-- Model of Python `str.upper` (ASCII fragment). -/
def pyUpper (s : List Char) : List Char := s.map pyUpperChar

/-- Characters stripped by Python `str.strip()` with no argument. -/
def pyIsSpace (c : Char) : Bool :=
  c = ' ' || c = '\t' || c = '\n' || c = '\r' || c = Char.ofNat 11 || c = Char.ofNat 12

/-- Model of Python `str.lstrip()`. -/
def pyLStrip : List Char → List Char
  | [] => []
  | c :: t => if pyIsSpace c then pyLStrip t else c :: t

/-- Model of Python `str.rstrip()`. -/
def pyRStrip (s : List Char) : List Char := (pyLStrip s.reverse).reverse

/-- Model of Python `str.strip()`. -/
def pyStrip (s : List Char) : List Char := pyRStrip (pyLStrip s)

/-- Model of Python `str.startswith`: first argument is the pattern. -/
def startsWithChars : List Char → List Char → Bool
  | [], _ => true
  | _ :: _, [] => false
  | p :: ps, c :: cs => p = c && startsWithChars ps cs

/-- Model of Python `s.split(sep, 1)` restricted to a single-character
separator: returns the segments around the first occurrence, or `none` when
the separator does not occur (modelling `sep in s` being false). -/
def splitFirst (sep : Char) : List Char → Option (List Char × List Char)
  | [] => none
  | c :: t =>
    if c = sep then some ([], t)
    else
      match splitFirst sep t with
      | none => none
      | some (a, b) => some (c :: a, b)

/-! ### `src/utils.py`: `parse_idea_from_message_text` -/

/-- Embedding of `parse_idea_from_message_text` from `src/utils.py`: strip a
leading case-insensitive `PI:` (3 characters) or `PI` (2 characters) together
with surrounding whitespace of the remainder, then split on the first pipe
with both segments stripped; with no pipe the whole remaining text is the
title and the description is empty. -/
def parse_idea_from_message_text (message_text : List Char) : List Char × List Char :=
  let t :=
    if startsWithChars ('P' :: 'I' :: ':' :: []) (pyUpper message_text) then
      pyStrip (message_text.drop 3)
    else if startsWithChars ('P' :: 'I' :: []) (pyUpper message_text) then
      pyStrip (message_text.drop 2)
    else message_text
  match splitFirst '|' t with
  | some (a, b) => (pyStrip a, pyStrip b)
  | none => (t, [])

/-- Reference parser following the specification text of claim C3: the
trigger prefix is stripped only when the fixed token (optionally followed by
a colon) is followed by a whitespace character; segments around the first
pipe are trimmed; with no pipe the entire trimmed remainder is the title. -/
def refParse (t : List Char) : List Char × List Char :=
  let headIsSpace : List Char → Bool := fun l =>
    match l with
    | [] => false
    | c :: _ => pyIsSpace c
  let r :=
    if startsWithChars ('P' :: 'I' :: ':' :: []) (pyUpper t) && headIsSpace (t.drop 3) then
      t.drop 3
    else if startsWithChars ('P' :: 'I' :: []) (pyUpper t) && headIsSpace (t.drop 2) then
      t.drop 2
    else t
  match splitFirst '|' r with
  | some (a, b) => (pyStrip a, pyStrip b)
  | none => (pyStrip r, [])

/-- Reference parser for the amended claim C3: the prefix is stripped
whenever the first three characters uppercase to `PI:` (drop three), or else
the first two uppercase to `PI` (drop two), with no requirement that the
next character be whitespace, and the stripped remainder is trimmed on both
sides; the first-pipe split trims both segments; with no pipe the remainder
(trimmed only when a prefix was stripped) is the title. -/
def refParseAmended (t : List Char) : List Char × List Char :=
  let r :=
    if (pyUpper t).take 3 = ('P' :: 'I' :: ':' :: []) then pyStrip (t.drop 3)
    else if (pyUpper t).take 2 = ('P' :: 'I' :: []) then pyStrip (t.drop 2)
    else t
  match splitFirst '|' r with
  | some (a, b) => (pyStrip a, pyStrip b)
  | none => (r, [])


/-! ### Data model: stored records and read views (`src/firebase_service.py`) -/

/-- One record of the `/ideas` collection as written by
`add_idea_to_firebase`: it carries `user_name` in addition to the fields the
read operations expose. The Firebase key is modelled by `id`. -/
structure StoredIdea where
  id : Nat
  user_id : String
  user_name : String
  title : List Char
  description : List Char
  timestamp : Int
  upvotes : Int
  downvotes : Int
deriving DecidableEq, Repr

/-- The dictionary built by `get_idea_from_firebase` and
`get_all_ideas_from_firebase`: exactly the keys `id`, `user_id`, `title`,
`description`, `timestamp` and `votes` (here flattened to `upvotes` and
`downvotes`); `user_name` is absent. -/
structure IdeaView where
  id : Nat
  user_id : String
  title : List Char
  description : List Char
  timestamp : Int
  upvotes : Int
  downvotes : Int
deriving DecidableEq, Repr

/-- Projection of a stored record to the read view, mirroring the dict
literals in `get_idea_from_firebase` and `get_all_ideas_from_firebase`. -/
def ideaView (s : StoredIdea) : IdeaView :=
  ⟨s.id, s.user_id, s.title, s.description, s.timestamp, s.upvotes, s.downvotes⟩

/-- The `/ideas` collection. Keys (`id` fields) of a real Firebase node are
unique; theorems that need this assume `Nodup` on the ids. -/
abbrev Store := List StoredIdea

/-! ### `src/firebase_service.py` operations -/

/-- Embedding of `add_idea_to_firebase`. The Python signature is
`def add_idea_to_firebase(user_id, user_name, title, description, timestamp=int(time.time()))`:
the default is evaluated once when the module is imported, so an omitted
`timestamp` argument (`none` here) stores `importTime`, the wall-clock value
at import, not the wall clock at call time. Returns the new store and the
generated key. -/
def add_idea_to_firebase (importTime : Int) (store : Store) (user_id user_name : String)
    (title description : List Char) (timestamp : Option Int) : Store × Nat :=
  let ts := timestamp.getD importTime
  let newId := store.length
  (store ++ [⟨newId, user_id, user_name, title, description, ts, 0, 0⟩], newId)

/-- Embedding of `get_idea_from_firebase`: key lookup, `none` when the idea
does not exist, otherwise the view dict without `user_name`. -/
def get_idea_from_firebase (store : Store) (idea_id : Nat) : Option IdeaView :=
  (store.find? (fun s => s.id = idea_id)).map ideaView

/-- Embedding of `get_all_ideas_from_firebase`: every record, projected to
the view dict without `user_name`. -/
def get_all_ideas_from_firebase (store : Store) : List IdeaView :=
  store.map ideaView

/-- Embedding of `get_ideas_by_user_from_firebase`: filter of the full list
on `user_id`. -/
def get_ideas_by_user_from_firebase (store : Store) (user_id : String) : List IdeaView :=
  (get_all_ideas_from_firebase store).filter (fun idea => idea.user_id = user_id)

/-- Embedding of `get_ideas_by_time_range_from_firebase`: filter of the full
list on `start_timetime <= timestamp <= end_time` (both bounds inclusive). -/
def get_ideas_by_time_range_from_firebase (store : Store) (start_timetime end_time : Int) :
    List IdeaView :=
  (get_all_ideas_from_firebase store).filter
    (fun idea => decide (start_timetime ≤ idea.timestamp ∧ idea.timestamp ≤ end_time))

/-- Embedding of `get_idea_count_from_firebase`. Python tests `if user_id:`,
so `None` and the empty string both fall back to counting all ideas. -/
def get_idea_count_from_firebase (store : Store) (user_id : Option String) : Nat :=
  match user_id with
  | some uid =>
    if uid = "" then (get_all_ideas_from_firebase store).length
    else (get_ideas_by_user_from_firebase store uid).length
  | none => (get_all_ideas_from_firebase store).length

/-- Replacement of the `votes` child of the record stored under `idea_id`,
modelling `idea_ref.update` on a keyed node (first match; keys are unique in
Firebase). -/
def writeVotes (store : Store) (idea_id : Nat) (u d : Int) : Store :=
  match store with
  | [] => []
  | s :: t =>
    if s.id = idea_id then { s with upvotes := u, downvotes := d } :: t
    else s :: writeVotes t idea_id u d

/-- Embedding of `update_votes`: exactly one of `votes` (absolute) and
`votes_change` (signed delta) must be supplied, otherwise a `ValueError` is
raised; a missing idea yields `false`; delta mode reads the current counts,
adds the signed delta and writes the sum back with no clamping. -/
def update_votes (store : Store) (idea_id : Nat) (votes : Option (Int × Int))
    (votes_change : Option (Int × Int)) : Except String (Store × Bool) :=
  match votes, votes_change with
  | none, none => .error "ValueError: one of votes and votes_change must be provided"
  | some _, some _ => .error "ValueError: only one of votes and votes_change can be provided"
  | some (u, d), none =>
    match store.find? (fun s => s.id = idea_id) with
    | none => .ok (store, false)
    | some _ => .ok (writeVotes store idea_id u d, true)
  | none, some (du, dd) =>
    match store.find? (fun s => s.id = idea_id) with
    | none => .ok (store, false)
    | some idea_data =>
      .ok (writeVotes store idea_id (idea_data.upvotes + du) (idea_data.downvotes + dd), true)

/-! ### `src/config.py`: command table and emoji sets -/

/-- Subcommands accepted for `fetch` in `COMMANDS` (`src/config.py`). Note
that the entry is the literal placeholder string, not a pattern. -/
def fetchSubcommands : List String := ["today", "<user-id>", "all", "me"]

/-- Subcommands accepted for `count` in `COMMANDS`. -/
def countSubcommands : List String := ["<user-id>", "me"]

/-- Lookup in the `COMMANDS` dict: `none` models `command not in COMMANDS`. -/
def commandTable (command : String) : Option (List String) :=
  if command = "fetch" then some fetchSubcommands
  else if command = "count" then some countSubcommands
  else if command = "help" then some []
  else none

/-- The `UPVOTE_EMOJIS` set from `src/config.py`. -/
def UPVOTE_EMOJIS : List String :=
  ["thumbsup", "heart", "saluting_face", "star", "upvote", "double-upvote",
   "upvote5", "upvote3", "8bit-upvote", "super-mega-upvote"]

/-- The `DOWNVOTE_EMOJIS` set from `src/config.py`. -/
def DOWNVOTE_EMOJIS : List String :=
  ["thumbsdown", "downvote", "downdoot", "downvote2", "downvote3",
   "downvotex", "downvote-red", "double-downvote"]

/-! ### `src/utils.py`: `sort_and_limit_ideas` -/

/-- Descending order on views by `timestamp`, the key used by
`sorted(ideas, key=lambda x: x["timestamp"], reverse=True)`. -/
def byTimestampDesc (a b : IdeaView) : Prop := b.timestamp ≤ a.timestamp

instance : DecidableRel byTimestampDesc := fun a b => Int.decLe b.timestamp a.timestamp

instance : IsTotal IdeaView byTimestampDesc :=
  ⟨fun a b => le_total b.timestamp a.timestamp⟩

instance : IsTrans IdeaView byTimestampDesc :=
  ⟨fun _ _ _ h1 h2 => le_trans h2 h1⟩

/-- Ascending order on views by `timestamp` (the `reverse=False` case). -/
def byTimestampAsc (a b : IdeaView) : Prop := a.timestamp ≤ b.timestamp

instance : DecidableRel byTimestampAsc := fun a b => Int.decLe a.timestamp b.timestamp

/-- Embedding of `sort_and_limit_ideas`: empty input returns `[]`; a list of
more than one idea is sorted by `timestamp` (descending when `reverse` is
true) with Python sorted modelled by the stable `List.insertionSort`; a list
longer than `limit` is truncated to its first `limit` elements. -/
def sort_and_limit_ideas (ideas : List IdeaView) (limit : Nat) (reverse : Bool) :
    List IdeaView :=
  if ideas = [] then []
  else
    let sortedIdeas :=
      if 1 < ideas.length then
        if reverse then List.insertionSort byTimestampDesc ideas
        else List.insertionSort byTimestampAsc ideas
      else ideas
    if limit < sortedIdeas.length then sortedIdeas.take limit else sortedIdeas

/-! ### `src/handlers.py`: `handle_command` (slash-command router) -/

/-- Result of the local `_fetch` closure inside `handle_command`. The
`invalidPayload` constructor models `_fetch` returning the
`INVALID_COMMAND` block dict (which the caller then iterates over, raising
`AttributeError`); `unboundLocal` models the `UnboundLocalError` raised at
the `sort_and_limit_ideas` call when no branch assigned `ideas`. -/
inductive FetchOutcome where
  | invalidPayload
  | unboundLocal
  | ideas (l : List IdeaView)
deriving DecidableEq, Repr

/-- Helpers for the `subcommand.startswith("<@") and subcommand.endswith(">")`
tests: Python `startswith` on a `String`. -/
def strStarts (pat s : String) : Bool := startsWithChars pat.toList s.toList

/-- Python `endswith` on a `String`. -/
def strEnds (pat s : String) : Bool := startsWithChars pat.toList.reverse s.toList.reverse

/-- The `subcommand[2:-1]` slice extracting a user id from a mention. -/
def mentionInner (s : String) : String := String.mk ((s.toList.drop 2).dropLast)

/-- Embedding of the `_fetch` closure (default `limit=5`): validate the
subcommand against `COMMANDS["fetch"]`, resolve the candidate set, then sort
descending by timestamp and truncate to 5. `now` models `time.time()`. -/
def fetchCommand (store : Store) (now : Int) (subcommand user_id : String) : FetchOutcome :=
  if ¬ subcommand ∈ fetchSubcommands then .invalidPayload
  else if subcommand = "today" then
    .ideas (sort_and_limit_ideas
      (get_ideas_by_time_range_from_firebase store (now - 86400) now) 5 true)
  else if subcommand = "all" then
    .ideas (sort_and_limit_ideas (get_all_ideas_from_firebase store) 5 true)
  else if subcommand = "me" then
    .ideas (sort_and_limit_ideas (get_ideas_by_user_from_firebase store user_id) 5 true)
  else if strStarts "<@" subcommand && strEnds ">" subcommand then
    .ideas (sort_and_limit_ideas
      (get_ideas_by_user_from_firebase store (mentionInner subcommand)) 5 true)
  else .unboundLocal

/-- Embedding of the `_count` closure: user mention, `me`, or total count,
each formatted as a sentence. -/
def countCommand (store : Store) (subcommand user_id : String) : String :=
  if strStarts "<@" subcommand && strEnds ">" subcommand then
    let u := mentionInner subcommand
    "<@" ++ u ++ "> has submitted " ++ toString (get_idea_count_from_firebase store (some u))
      ++ " ideas."
  else if subcommand = "me" then
    "You have submitted " ++ toString (get_idea_count_from_firebase store (some user_id))
      ++ " ideas."
  else
    "There are a total of " ++ toString (get_idea_count_from_firebase store none)
      ++ " ideas submitted."

/-- The user-visible outcome of `handle_command`: the ephemeral payload kind,
with `raisedError` modelling an exception escaping the handler. -/
inductive CommandResponse where
  | invalidCommand
  | ideaList (ideas : List IdeaView)
  | countText (text : String)
  | helpMessage
  | raisedError
deriving DecidableEq, Repr

/-- Embedding of `handle_command`: empty parts or a command/subcommand that
fails the `COMMANDS` table check send `INVALID_COMMAND`; `fetch` renders the
idea list returned by `_fetch` (crashing when `_fetch` did not produce a
list); `count` sends the sentence from `_count`; `help` sends the static
help payload. -/
def handle_command (parts : List String) (user_id : String) (store : Store) (now : Int) :
    CommandResponse :=
  match parts with
  | [] => .invalidCommand
  | command :: rest =>
    let subcommand := rest.headD ""
    match commandTable command with
    | none => .invalidCommand
    | some subs =>
      if subcommand ≠ "" ∧ ¬ subcommand ∈ subs then .invalidCommand
      else if command = "fetch" then
        match fetchCommand store now subcommand user_id with
        | .ideas l => .ideaList l
        | _ => .raisedError
      else if command = "count" then .countText (countCommand store subcommand user_id)
      else if command = "help" then .helpMessage
      else .invalidCommand

/-! ### `src/handlers.py`: `handle_message` (submission flow) -/

/-- The ephemeral response sent by `handle_message`. -/
inductive MessageResponse where
  | submissionSuccess
  | submissionEmpty
deriving DecidableEq, Repr

/-- Store and response produced by one `handle_message` invocation. -/
structure MessageOutcome where
  store : Store
  response : MessageResponse
deriving DecidableEq, Repr

/-- Embedding of `handle_message`: the raw event text is stripped; when the
stripped text is non-empty it is parsed and a new idea is stored with the
events own timestamp (`ts`, from `int(float(body["event"]["ts"]))`) and the
success message is sent; only when the stripped text is empty is the
empty-submission prompt sent with no store write. `user_name` models the
result of the external `get_user_name_from_id` lookup. -/
def handle_message (importTime : Int) (user_name : String) (store : Store)
    (text : List Char) (user_id : String) (ts : Int) : MessageOutcome :=
  let message_text := pyStrip text
  if message_text ≠ [] then
    let parsed := parse_idea_from_message_text message_text
    let store2 :=
      (add_idea_to_firebase importTime store user_id user_name parsed.1 parsed.2 (some ts)).1
    ⟨store2, .submissionSuccess⟩
  else ⟨store, .submissionEmpty⟩

/-! ### `src/handlers.py`: `handle_reaction` (vote aggregator) -/

/-- One message as returned by `client.conversations_history`; `ts = none`
models a message payload without a `ts` key, on which
`int(float(message.get("ts", None)))` raises `TypeError`. -/
structure SlackMessage where
  text : List Char
  ts : Option Int
deriving DecidableEq, Repr

/-- Result of the `client.conversations_history` call: the call itself can
raise (`apiError`) or return a message list. -/
inductive HistoryResult where
  | apiError
  | ok (messages : List SlackMessage)
deriving DecidableEq, Repr

/-- External collaborators of `handle_reaction`: the platform response for
the message fetch, and whether the backing store raises on the vote write
(`idea_ref.update` failing at the service). -/
structure ReactionEnv where
  history : HistoryResult
  writeRaises : Bool
deriving DecidableEq, Repr

/-- Observable outcome of `handle_reaction`: the resulting store, and
whether any Firebase operation was invoked (`storeAccessed` is `false`
exactly on the paths that return before the first Firebase call). -/
structure ReactionOutcome where
  store : Store
  storeAccessed : Bool
deriving DecidableEq, Repr

/-- Embedding of the `try` block of `handle_reaction`, from the
`conversations_history` call to the `update_votes` call. Errors carry the
exception text and whether the store had been accessed by the time they were
raised. Modelled raises: the platform call failing, `float(None)` on a
missing message `ts`, the two `assert` statements, and the backing store
failing the vote write. -/
def handleReactionTry (env : ReactionEnv) (reaction user_id : String) (store : Store)
    (sign : Int) : Except (String × Bool) (Store × Bool) :=
  match env.history with
  | .apiError => .error ("SlackApiError", false)
  | .ok messages =>
    match messages with
    | [] => .ok (store, false)
    | message :: _ =>
      let message_text := message.text
      match message.ts with
      | none => .error ("TypeError: float argument must not be None", false)
      | some timestamp =>
        if startsWithChars ('P' :: 'I' :: ':' :: []) (pyUpper message_text) = false ∧
           startsWithChars ('P' :: 'I' :: []) (pyUpper message_text) = false then
          .ok (store, false)
        else
          match get_ideas_by_time_range_from_firebase store timestamp timestamp with
          | [] => .ok (store, true)
          | idea0 :: _ =>
            if idea0.user_id ≠ user_id then
              .error ("AssertionError: User ID mismatch for idea submission.", true)
            else if (idea0.title, idea0.description) ≠ parse_idea_from_message_text message_text then
              .error ("AssertionError: Title and description mismatch for idea submission.", true)
            else if reaction ∈ UPVOTE_EMOJIS then
              if env.writeRaises then .error ("FirebaseError: update failed", true)
              else
                match update_votes store idea0.id none (some (1 * sign, 0)) with
                | .ok (s2, _) => .ok (s2, true)
                | .error e => .error (e, true)
            else if reaction ∈ DOWNVOTE_EMOJIS then
              if env.writeRaises then .error ("FirebaseError: update failed", true)
              else
                match update_votes store idea0.id none (some (0, 1 * sign)) with
                | .ok (s2, _) => .ok (s2, true)
                | .error e => .error (e, true)
            else .ok (store, true)

/-- Embedding of `handle_reaction` typed as a fallible function: a `.error`
result would model an exception escaping to the event loop. The guards
before the `try` block (item type not `message`, reaction in neither emoji
set) return silently; the `except Exception` clause turns every error of the
`try` block into a logged no-op that leaves the store as it was. -/
def handle_reaction_except (env : ReactionEnv) (eventType reaction user_id item_type : String)
    (store : Store) : Except String ReactionOutcome :=
  if item_type ≠ "message" then .ok ⟨store, false⟩
  else if ¬ reaction ∈ UPVOTE_EMOJIS ∧ ¬ reaction ∈ DOWNVOTE_EMOJIS then .ok ⟨store, false⟩
  else
    let sign : Int := if eventType = "reaction_added" then 1 else -1
    match handleReactionTry env reaction user_id store sign with
    | .ok (s2, accessed) => .ok ⟨s2, accessed⟩
    | .error e => .ok ⟨store, e.2⟩

/-- Total form of `handle_reaction` (the handler never raises; see
`handle_reaction_except`). -/
def handle_reaction (env : ReactionEnv) (eventType reaction user_id item_type : String)
    (store : Store) : ReactionOutcome :=
  match handle_reaction_except env eventType reaction user_id item_type store with
  | .ok out => out
  | .error _ => ⟨store, false⟩

/-! ### Operation sequences over the store (for the vote non-negativity claim) -/

/-- The store operations reachable from the handlers: `create` via
`add_idea_to_firebase`, absolute vote writes and signed delta vote updates
via `update_votes`. -/
inductive StoreOp where
  | create (user_id user_name : String) (title description : List Char) (timestamp : Option Int)
  | setVotes (idea_id : Nat) (v : Int × Int)
  | deltaVotes (idea_id : Nat) (d : Int × Int)

/-- Application of one operation, discarding the returned key and success
flag (a raised `ValueError` cannot occur for these argument shapes and is
modelled as leaving the store unchanged). -/
def applyOp (importTime : Int) (store : Store) : StoreOp → Store
  | .create uid uname t d ts => (add_idea_to_firebase importTime store uid uname t d ts).1
  | .setVotes k v =>
    match update_votes store k (some v) none with
    | .ok (s2, _) => s2
    | .error _ => store
  | .deltaVotes k d =>
    match update_votes store k none (some d) with
    | .ok (s2, _) => s2
    | .error _ => store

/-- Left fold of a sequence of store operations. -/
def applyOps (importTime : Int) (store : Store) (ops : List StoreOp) : Store :=
  ops.foldl (applyOp importTime) store

/-- Every idea in the store has non-negative upvotes and downvotes. -/
def NonnegStore (store : Store) : Prop :=
  ∀ s ∈ store, 0 ≤ s.upvotes ∧ 0 ≤ s.downvotes

/-- Safety of one operation against the current store: creates are always
safe, absolute writes must write non-negative counts, and a delta must not
take the target below zero in either component. -/
def SafeOp (store : Store) : StoreOp → Prop
  | .create _ _ _ _ _ => True
  | .setVotes _ v => 0 ≤ v.1 ∧ 0 ≤ v.2
  | .deltaVotes k d =>
    ∀ st, store.find? (fun x => x.id = k) = some st →
      0 ≤ st.upvotes + d.1 ∧ 0 ≤ st.downvotes + d.2

/-- Safety of a sequence of operations, each judged against the store it is
applied to. -/
inductive SafeOps (importTime : Int) : Store → List StoreOp → Prop where
  | nil (store : Store) : SafeOps importTime store []
  | cons (store : Store) (op : StoreOp) (ops : List StoreOp) (hop : SafeOp store op)
      (ht : SafeOps importTime (applyOp importTime store op) ops) :
      SafeOps importTime store (op :: ops)

/-- Invocation of `handle_reaction` on a reaction event whose item is a
message, where the platform message fetch succeeds with exactly one message
of the given text and timestamp and the backing store accepts the write. -/
def reactionRun (store : Store) (msgText : List Char) (msgTs : Int)
    (etype reaction uid : String) : ReactionOutcome :=
  handle_reaction ⟨.ok [⟨msgText, some msgTs⟩], false⟩ etype reaction uid "message" store


/-! ### Concrete fixtures used by the witnesses -/

/-- The stored idea of the end-to-end scenario of the specification:
submitted by `U1` at timestamp 1000 with zero votes. -/
def idea1 : StoredIdea :=
  ⟨0, "U1", "Maadhav", "Dark mode".toList, "Add a dark theme".toList, 1000, 0, 0⟩

/-- A store holding exactly `idea1`. -/
def store1 : Store := [idea1]

/-- The message text the scenario submits and later reacts to. -/
def msg1 : List Char := "pi: Dark mode | Add a dark theme".toList

/-- A store holding seven ideas with distinct timestamps. -/
def store7 : Store :=
  [⟨0, "U1", "n1", ('a' :: []), [], 10, 0, 0⟩,
   ⟨1, "U2", "n2", ('b' :: []), [], 70, 0, 0⟩,
   ⟨2, "U3", "n3", ('c' :: []), [], 30, 0, 0⟩,
   ⟨3, "U4", "n4", ('d' :: []), [], 50, 0, 0⟩,
   ⟨4, "U5", "n5", ('e' :: []), [], 20, 0, 0⟩,
   ⟨5, "U6", "n6", ('f' :: []), [], 60, 0, 0⟩,
   ⟨6, "U7", "n7", ('g' :: []), [], 40, 0, 0⟩]

/-- The five most recent ideas of `store7`, newest first. -/
def fetch7 : List IdeaView :=
  [⟨1, "U2", ('b' :: []), [], 70, 0, 0⟩,
   ⟨5, "U6", ('f' :: []), [], 60, 0, 0⟩,
   ⟨3, "U4", ('d' :: []), [], 50, 0, 0⟩,
   ⟨6, "U7", ('g' :: []), [], 40, 0, 0⟩,
   ⟨2, "U3", ('c' :: []), [], 30, 0, 0⟩]

/-- A safe operation sequence: create an idea, add an upvote delta, then
remove it again. -/
def opsW : List StoreOp :=
  [.create "U1" "n" ('t' :: []) [] (some 5), .deltaVotes 0 (1, 0), .deltaVotes 0 (-1, 0)]

/-! ### Helper lemmas -/

theorem startsWithChars_iff_take (pat s : List Char) :
    startsWithChars pat s = true ↔ s.take pat.length = pat := by
  induction pat generalizing s with
  | nil => simp [startsWithChars]
  | cons p ps ih =>
    cases s with
    | nil => simp [startsWithChars]
    | cons c cs =>
      rw [show startsWithChars (p :: ps) (c :: cs) = (decide (p = c) && startsWithChars ps cs)
        from rfl]
      rw [Bool.and_eq_true, decide_eq_true_iff]
      rw [show (c :: cs).take (p :: ps).length = c :: cs.take ps.length from rfl]
      rw [List.cons.injEq, ih]
      constructor
      · exact fun h => ⟨h.1.symm, h.2⟩
      · exact fun h => ⟨h.1.symm, h.2⟩

theorem parse_eq_refParseAmended (t : List Char) :
    parse_idea_from_message_text t = refParseAmended t := by
  unfold parse_idea_from_message_text refParseAmended
  by_cases h3 : (pyUpper t).take 3 = ('P' :: 'I' :: ':' :: [])
  · have hb : startsWithChars ('P' :: 'I' :: ':' :: []) (pyUpper t) = true :=
      (startsWithChars_iff_take _ _).mpr h3
    rw [if_pos hb, if_pos h3]
  · have hb : ¬ startsWithChars ('P' :: 'I' :: ':' :: []) (pyUpper t) = true := by
      rw [startsWithChars_iff_take]; exact h3
    rw [if_neg hb, if_neg h3]
    by_cases h2 : (pyUpper t).take 2 = ('P' :: 'I' :: [])
    · have hb2 : startsWithChars ('P' :: 'I' :: []) (pyUpper t) = true :=
        (startsWithChars_iff_take _ _).mpr h2
      rw [if_pos hb2, if_pos h2]
    · have hb2 : ¬ startsWithChars ('P' :: 'I' :: []) (pyUpper t) = true := by
        rw [startsWithChars_iff_take]; exact h2
      rw [if_neg hb2, if_neg h2]

theorem find_id_of_mem_nodup (store : Store) (s : StoredIdea)
    (hnd : (store.map (fun x => x.id)).Nodup) (hmem : s ∈ store) :
    store.find? (fun x => x.id = s.id) = some s := by
  induction store with
  | nil => cases hmem
  | cons a t ih =>
    rw [List.map_cons, List.nodup_cons] at hnd
    rcases List.mem_cons.mp hmem with h | h
    · subst h
      exact List.find?_cons_of_pos _ (by simp)
    · have hne : ¬ a.id = s.id := by
        intro he
        exact hnd.1 (he ▸ List.mem_map_of_mem (fun x => x.id) h)
      rw [List.find?_cons_of_neg _ (by simpa using hne)]
      exact ih hnd.2 h

theorem writeVotes_cons (a : StoredIdea) (t : Store) (k : Nat) (u d : Int) :
    writeVotes (a :: t) k u d =
      if a.id = k then { a with upvotes := u, downvotes := d } :: t
      else a :: writeVotes t k u d := rfl

theorem find_writeVotes_self (store : Store) (k : Nat) (u d : Int) (st : StoredIdea)
    (h : store.find? (fun x => x.id = k) = some st) :
    (writeVotes store k u d).find? (fun x => x.id = k) =
      some { st with upvotes := u, downvotes := d } := by
  induction store with
  | nil => simp [List.find?] at h
  | cons a t ih =>
    by_cases ha : a.id = k
    · rw [List.find?_cons_of_pos _ (by simpa using ha)] at h
      have haeq : a = st := by injection h
      subst haeq
      rw [writeVotes_cons, if_pos ha]
      exact List.find?_cons_of_pos _ (by simpa using ha)
    · rw [List.find?_cons_of_neg _ (by simpa using ha)] at h
      rw [writeVotes_cons, if_neg ha]
      rw [List.find?_cons_of_neg _ (by simpa using ha)]
      exact ih h

theorem find_writeVotes_ne (store : Store) (k k2 : Nat) (u d : Int) (hne : k2 ≠ k) :
    (writeVotes store k u d).find? (fun x => x.id = k2) =
      store.find? (fun x => x.id = k2) := by
  induction store with
  | nil => simp [writeVotes]
  | cons a t ih =>
    by_cases ha : a.id = k
    · rw [writeVotes_cons, if_pos ha]
      have hane : ¬ a.id = k2 := fun he => hne (he.symm.trans ha)
      rw [List.find?_cons_of_neg _ (by simpa using hane),
        List.find?_cons_of_neg _ (by simpa using hane)]
    · rw [writeVotes_cons, if_neg ha]
      by_cases ha2 : a.id = k2
      · rw [List.find?_cons_of_pos _ (by simpa using ha2),
          List.find?_cons_of_pos _ (by simpa using ha2)]
      · rw [List.find?_cons_of_neg _ (by simpa using ha2),
          List.find?_cons_of_neg _ (by simpa using ha2)]
        exact ih

theorem mem_writeVotes (store : Store) (k : Nat) (u d : Int) (x : StoredIdea)
    (hx : x ∈ writeVotes store k u d) :
    x ∈ store ∨ ∃ st, store.find? (fun y => y.id = k) = some st ∧
      x = { st with upvotes := u, downvotes := d } := by
  induction store with
  | nil => simp [writeVotes] at hx
  | cons a t ih =>
    by_cases ha : a.id = k
    · rw [writeVotes_cons, if_pos ha] at hx
      rcases List.mem_cons.mp hx with h | h
      · exact Or.inr ⟨a, List.find?_cons_of_pos _ (by simpa using ha), h⟩
      · exact Or.inl (List.mem_cons_of_mem _ h)
    · rw [writeVotes_cons, if_neg ha] at hx
      rcases List.mem_cons.mp hx with h | h
      · exact Or.inl (h ▸ List.mem_cons_self _ _)
      · rcases ih h with h2 | ⟨st, hf, he⟩
        · exact Or.inl (List.mem_cons_of_mem _ h2)
        · exact Or.inr ⟨st, by
            rw [List.find?_cons_of_neg _ (by simpa using ha)]; exact hf, he⟩

theorem sort_and_limit_sorted (ideas : List IdeaView) (limit : Nat) :
    List.Sorted byTimestampDesc (sort_and_limit_ideas ideas limit true) ∧
      (sort_and_limit_ideas ideas limit true).length ≤ limit := by
  unfold sort_and_limit_ideas
  by_cases he : ideas = []
  · rw [if_pos he]
    exact ⟨List.sorted_nil, by simp⟩
  · rw [if_neg he]
    have hsorted : List.Sorted byTimestampDesc
        (if 1 < ideas.length then
          if true = true then List.insertionSort byTimestampDesc ideas
          else List.insertionSort byTimestampAsc ideas
        else ideas) := by
      by_cases h1 : 1 < ideas.length
      · rw [if_pos h1, if_pos rfl]
        exact List.sorted_insertionSort byTimestampDesc ideas
      · rw [if_neg h1]
        have hlen : ideas.length = 1 := by
          have := List.length_pos.mpr he
          omega
        obtain ⟨a, ha⟩ := List.length_eq_one.mp hlen
        rw [ha]
        exact List.sorted_singleton a
    set s := (if 1 < ideas.length then
          if true = true then List.insertionSort byTimestampDesc ideas
          else List.insertionSort byTimestampAsc ideas
        else ideas) with hs
    by_cases h2 : limit < s.length
    · rw [if_pos h2]
      constructor
      · exact List.Pairwise.sublist (List.take_sublist _ _) hsorted
      · simp [List.length_take]
    · rw [if_neg h2]
      exact ⟨hsorted, by omega⟩

theorem nonneg_applyOp (importTime : Int) (store : Store) (op : StoreOp)
    (h0 : NonnegStore store) (hs : SafeOp store op) :
    NonnegStore (applyOp importTime store op) := by
  cases op with
  | create uid uname t d ts =>
    intro x hx
    rcases List.mem_append.mp hx with h | h
    · exact h0 x h
    · rcases List.mem_singleton.mp h with rfl
      exact ⟨le_refl 0, le_refl 0⟩
  | setVotes k v =>
    obtain ⟨u, d⟩ := v
    intro x hx
    rcases hfind : store.find? (fun s => s.id = k) with _ | st
    · simp only [applyOp, update_votes, hfind] at hx
      exact h0 x hx
    · simp only [applyOp, update_votes, hfind] at hx
      rcases mem_writeVotes store k u d x hx with h | ⟨st2, _, he⟩
      · exact h0 x h
      · subst he
        exact hs
  | deltaVotes k d =>
    obtain ⟨du, dd⟩ := d
    intro x hx
    rcases hfind : store.find? (fun s => s.id = k) with _ | st
    · simp only [applyOp, update_votes, hfind] at hx
      exact h0 x hx
    · simp only [applyOp, update_votes, hfind] at hx
      rcases mem_writeVotes store k _ _ x hx with h | ⟨st2, hf2, he⟩
      · exact h0 x h
      · subst he
        have hst2 : st2 = st := by
          rw [hfind] at hf2
          injection hf2.symm
        subst hst2
        exact hs st2 hfind

theorem reactionRun_up (store : Store) (msgText : List Char) (msgTs : Int)
    (etype reaction uid : String) (st : StoredIdea) (rest : List IdeaView)
    (htrig : startsWithChars ('P' :: 'I' :: []) (pyUpper msgText) = true)
    (hrange : get_ideas_by_time_range_from_firebase store msgTs msgTs = ideaView st :: rest)
    (hfind : store.find? (fun x => x.id = st.id) = some st)
    (huser : st.user_id = uid)
    (hparse : (st.title, st.description) = parse_idea_from_message_text msgText)
    (hup : reaction ∈ UPVOTE_EMOJIS) :
    reactionRun store msgText msgTs etype reaction uid =
      ⟨writeVotes store st.id
        (st.upvotes + (if etype = "reaction_added" then 1 else -1)) st.downvotes, true⟩ := by
  have hnotboth : ¬ (¬ reaction ∈ UPVOTE_EMOJIS ∧ ¬ reaction ∈ DOWNVOTE_EMOJIS) :=
    fun h => h.1 hup
  simp only [reactionRun, handle_reaction, handle_reaction_except, handleReactionTry,
    hrange, htrig, hup, update_votes, hfind, ne_eq]
  simp [ideaView, huser, ← hparse, hnotboth, hfind]

theorem reactionRun_down (store : Store) (msgText : List Char) (msgTs : Int)
    (etype reaction uid : String) (st : StoredIdea) (rest : List IdeaView)
    (htrig : startsWithChars ('P' :: 'I' :: []) (pyUpper msgText) = true)
    (hrange : get_ideas_by_time_range_from_firebase store msgTs msgTs = ideaView st :: rest)
    (hfind : store.find? (fun x => x.id = st.id) = some st)
    (huser : st.user_id = uid)
    (hparse : (st.title, st.description) = parse_idea_from_message_text msgText)
    (hdown : reaction ∈ DOWNVOTE_EMOJIS) :
    reactionRun store msgText msgTs etype reaction uid =
      ⟨writeVotes store st.id st.upvotes
        (st.downvotes + (if etype = "reaction_added" then 1 else -1)), true⟩ := by
  have hnotboth : ¬ (¬ reaction ∈ UPVOTE_EMOJIS ∧ ¬ reaction ∈ DOWNVOTE_EMOJIS) :=
    fun h => h.2 hdown
  by_cases hup : reaction ∈ UPVOTE_EMOJIS
  · exfalso
    simp only [UPVOTE_EMOJIS, List.mem_cons, List.not_mem_nil, or_false] at hup
    rcases hup with rfl | rfl | rfl | rfl | rfl | rfl | rfl | rfl | rfl | rfl <;>
      exact absurd hdown (by decide)
  · simp only [reactionRun, handle_reaction, handle_reaction_except, handleReactionTry,
      hrange, htrig, hup, hdown, update_votes, hfind, ne_eq]
    simp [ideaView, huser, ← hparse, hnotboth, hfind, hup, hdown]

theorem reactionRun_neither (store : Store) (msgText : List Char) (msgTs : Int)
    (etype reaction uid : String)
    (hnup : ¬ reaction ∈ UPVOTE_EMOJIS) (hndown : ¬ reaction ∈ DOWNVOTE_EMOJIS) :
    reactionRun store msgText msgTs etype reaction uid = ⟨store, false⟩ := by
  simp [reactionRun, handle_reaction, handle_reaction_except, hnup, hndown]

/-- C1: for a reaction event on a message that correlates to a stored idea
(the range query returns that idea first, the author check and the re-parse
check both pass), an emoji in the upvote set changes that idea, as seen
through the store reads, by adding the event sign (`+1` for
`reaction_added`, `-1` otherwise) to `upvotes` with `downvotes` unchanged
and every other id unchanged; an emoji in the downvote set does the same to
`downvotes` with `upvotes` unchanged; an emoji in neither set leaves the
store unchanged and performs no store access at all. -/
theorem handle_reaction_vote_effect
    (store : Store) (msgText : List Char) (msgTs : Int) (etype reaction uid : String)
    (i : IdeaView) (rest : List IdeaView)
    (hnd : (store.map (fun s => s.id)).Nodup)
    (htrig : startsWithChars ('P' :: 'I' :: []) (pyUpper msgText) = true)
    (hrange : get_ideas_by_time_range_from_firebase store msgTs msgTs = i :: rest)
    (huser : i.user_id = uid)
    (hparse : (i.title, i.description) = parse_idea_from_message_text msgText) :
    (reaction ∈ UPVOTE_EMOJIS →
      (reactionRun store msgText msgTs etype reaction uid).storeAccessed = true ∧
      get_idea_from_firebase (reactionRun store msgText msgTs etype reaction uid).store i.id =
        some { i with upvotes := i.upvotes + (if etype = "reaction_added" then 1 else -1) } ∧
      ∀ k, k ≠ i.id →
        get_idea_from_firebase (reactionRun store msgText msgTs etype reaction uid).store k =
          get_idea_from_firebase store k) ∧
    (reaction ∈ DOWNVOTE_EMOJIS →
      (reactionRun store msgText msgTs etype reaction uid).storeAccessed = true ∧
      get_idea_from_firebase (reactionRun store msgText msgTs etype reaction uid).store i.id =
        some { i with downvotes := i.downvotes + (if etype = "reaction_added" then 1 else -1) } ∧
      ∀ k, k ≠ i.id →
        get_idea_from_firebase (reactionRun store msgText msgTs etype reaction uid).store k =
          get_idea_from_firebase store k) ∧
    (¬ reaction ∈ UPVOTE_EMOJIS → ¬ reaction ∈ DOWNVOTE_EMOJIS →
      reactionRun store msgText msgTs etype reaction uid = ⟨store, false⟩) := by
  have hmem : i ∈ get_ideas_by_time_range_from_firebase store msgTs msgTs := by
    rw [hrange]; exact List.mem_cons_self _ _
  have hmem2 : i ∈ get_all_ideas_from_firebase store := List.mem_of_mem_filter hmem
  obtain ⟨st, hstmem, hview⟩ := List.mem_map.mp hmem2
  subst hview
  have hfind : store.find? (fun x => x.id = st.id) = some st :=
    find_id_of_mem_nodup store st hnd hstmem
  refine ⟨?_, ?_, ?_⟩
  · intro hup
    have hrun := reactionRun_up store msgText msgTs etype reaction uid st rest
      htrig hrange hfind huser hparse hup
    rw [hrun]
    refine ⟨rfl, ?_, ?_⟩
    · show (List.find? (fun x => x.id = st.id) (writeVotes store st.id
        (st.upvotes + (if etype = "reaction_added" then 1 else -1)) st.downvotes)).map ideaView = _
      rw [find_writeVotes_self store st.id _ _ st hfind]
      rfl
    · intro k hk
      show (List.find? (fun x => x.id = k) (writeVotes store st.id
        (st.upvotes + (if etype = "reaction_added" then 1 else -1)) st.downvotes)).map ideaView = _
      rw [find_writeVotes_ne store st.id k _ _ hk]
      rfl
  · intro hdown
    have hrun := reactionRun_down store msgText msgTs etype reaction uid st rest
      htrig hrange hfind huser hparse hdown
    rw [hrun]
    refine ⟨rfl, ?_, ?_⟩
    · show (List.find? (fun x => x.id = st.id) (writeVotes store st.id
        st.upvotes (st.downvotes + (if etype = "reaction_added" then 1 else -1)))).map ideaView = _
      rw [find_writeVotes_self store st.id _ _ st hfind]
      rfl
    · intro k hk
      show (List.find? (fun x => x.id = k) (writeVotes store st.id
        st.upvotes (st.downvotes + (if etype = "reaction_added" then 1 else -1)))).map ideaView = _
      rw [find_writeVotes_ne store st.id k _ _ hk]
      rfl
  · intro hnup hndown
    exact reactionRun_neither store msgText msgTs etype reaction uid hnup hndown

/-- Witness for C1: in the specification scenario (idea of `U1` stored at
timestamp 1000, `thumbsup` reaction added on the originating message), the
idea read back from the store has one upvote and zero downvotes. -/
theorem handle_reaction_vote_effect_witness :
    get_idea_from_firebase
      (reactionRun store1 msg1 1000 "reaction_added" "thumbsup" "U1").store 0 =
      some ⟨0, "U1", "Dark mode".toList, "Add a dark theme".toList, 1000, 1, 0⟩ := by
  have h := handle_reaction_vote_effect store1 msg1 1000 "reaction_added" "thumbsup" "U1"
    (ideaView idea1) [] (by decide) (by decide) (by decide) (by decide) (by decide)
  have h2 := (h.1 (by decide)).2.1
  exact h2.trans (by decide)

/-- C2: `handle_message` on any event whose stripped text is non-empty
appends exactly one idea record whose `user_id` is the submitter, whose
title and description are the parse of the stripped message text, whose
timestamp is the triggering events own timestamp (never the import-time
wall clock), and whose votes are zero. -/
theorem handle_message_submission (importTime : Int) (user_name : String) (store : Store)
    (text : List Char) (user_id : String) (ts : Int)
    (h : pyStrip text ≠ []) :
    handle_message importTime user_name store text user_id ts =
      ⟨store ++ [⟨store.length, user_id, user_name,
        (parse_idea_from_message_text (pyStrip text)).1,
        (parse_idea_from_message_text (pyStrip text)).2, ts, 0, 0⟩],
        .submissionSuccess⟩ := by
  simp [handle_message, add_idea_to_firebase, h]

/-- Witness for C2: submitting the scenario message from `U1` at event
timestamp 1000 (in a process imported at wall clock 9999) stores exactly
one idea with title `Dark mode`, description `Add a dark theme`, timestamp
1000 and zero votes. -/
theorem handle_message_submission_witness :
    handle_message 9999 "Maadhav" [] msg1 "U1" 1000 =
      ⟨[⟨0, "U1", "Maadhav", "Dark mode".toList, "Add a dark theme".toList, 1000, 0, 0⟩],
        .submissionSuccess⟩ := by
  have h := handle_message_submission 9999 "Maadhav" [] msg1 "U1" 1000 (by decide)
  exact h.trans (by decide)

/-- Counterexample for C3: on the input `Pineapple` the implemented parser
strips the case-insensitive `PI` prefix although it is not followed by
whitespace, returning title `neapple`, while the reference of the claim
leaves the text alone and returns title `Pineapple`. -/
theorem parse_differs_from_reference :
    parse_idea_from_message_text "Pineapple".toList ≠ refParse "Pineapple".toList ∧
    parse_idea_from_message_text "Pineapple".toList = ("neapple".toList, []) ∧
    refParse "Pineapple".toList = ("Pineapple".toList, []) :=
  ⟨by decide, by decide, by decide⟩

/-- C3 (amended): the parser is total with `parse [] = ([], [])`, and it
equals the amended reference, which strips the prefix whenever the text
merely starts with the case-insensitive token (optional colon), with no
whitespace requirement, trimming the stripped remainder; splitting on the
first pipe trims both segments, and with no pipe the remainder is the title
with an empty description. -/
theorem parse_matches_amended_reference :
    (∀ t, parse_idea_from_message_text t = refParseAmended t) ∧
    parse_idea_from_message_text [] = ([], []) :=
  ⟨parse_eq_refParseAmended, by decide⟩

/-- Counterexample for C4: creating an idea (zero votes) and processing one
reaction-removed upvote delta drives `upvotes` to `-1`; the code does not
clamp, so non-negativity does not hold after arbitrary delta sequences. -/
theorem votes_nonneg_counterexample :
    ¬ NonnegStore (applyOps 0 []
      [.create "U1" "n" ('t' :: []) [] (some 5), .deltaVotes 0 (-1, 0)]) := by
  intro h
  have h2 := h ⟨0, "U1", "n", ('t' :: []), [], 5, -1, 0⟩ (by decide)
  exact absurd h2.1 (by decide)

/-- C4 (amended): vote counts start at zero on creation and stay
non-negative under any sequence of create, absolute-write and delta
operations in which every absolute write is non-negative and no delta takes
its targets counts below zero; without that restriction the unclamped
read-add-write of `update_votes` can go negative. -/
theorem votes_nonneg_of_safe_ops (importTime : Int) (store : Store) (ops : List StoreOp)
    (h0 : NonnegStore store) (hs : SafeOps importTime store ops) :
    NonnegStore (applyOps importTime store ops) := by
  revert h0
  induction hs with
  | nil s => exact fun h0 => h0
  | cons s op ops hop ht ih =>
    intro h0
    have h1 : NonnegStore (applyOp importTime s op) := nonneg_applyOp importTime s op h0 hop
    simpa [applyOps] using ih h1

/-- Witness for C4: the safe sequence `opsW` (create, add an upvote, remove
it again) keeps every vote count non-negative. -/
theorem votes_nonneg_of_safe_ops_witness : NonnegStore (applyOps 0 [] opsW) := by
  apply votes_nonneg_of_safe_ops
  · intro s hs
    simp at hs
  · refine SafeOps.cons _ _ _ trivial ?_
    refine SafeOps.cons _ _ _ ?_ ?_
    · intro st hst
      have hconc : List.find? (fun x => x.id = 0)
          (applyOp 0 [] (StoreOp.create "U1" "n" ('t' :: []) [] (some 5))) =
          some (⟨0, "U1", "n", ('t' :: []), [], 5, 0, 0⟩ : StoredIdea) := by decide
      have he := Option.some.inj (hconc.symm.trans hst)
      rw [← he]
      decide
    · refine SafeOps.cons _ _ _ ?_ (SafeOps.nil _)
      intro st hst
      have hconc : List.find? (fun x => x.id = 0)
          (applyOp 0 (applyOp 0 [] (StoreOp.create "U1" "n" ('t' :: []) [] (some 5)))
            (StoreOp.deltaVotes 0 (1, 0))) =
          some (⟨0, "U1", "n", ('t' :: []), [], 5, 1, 0⟩ : StoredIdea) := by decide
      have he := Option.some.inj (hconc.symm.trans hst)
      rw [← he]
      decide

/-- C5 (code bug): a user-mention subcommand such as `<@u123>` is not in the
`COMMANDS` table (whose entry is the literal placeholder `<user-id>`), so
`handle_command` answers fetch and count invocations with the
invalid-command payload instead of the user-scoped result; the mention
branch of the `_count` closure would produce the correct sentence, and the
mention branch of `_fetch` is additionally shadowed by its own table
re-check, as the sources own `FIX` comment records. -/
theorem user_mention_rejected :
    handle_command ("fetch" :: "<@u123>" :: []) "u9" [] 0 = .invalidCommand ∧
    handle_command ("count" :: "<@u123>" :: []) "u9" [] 0 = .invalidCommand ∧
    countCommand [] "<@u123>" "u9" = "<@u123> has submitted 0 ideas." ∧
    fetchCommand [] 0 "<@u123>" "u9" = .invalidPayload :=
  ⟨by decide, by decide, by decide, by decide⟩

theorem fetchCommand_shape (store : Store) (now : Int) (subcommand user_id : String)
    (l : List IdeaView) (h : fetchCommand store now subcommand user_id = .ideas l) :
    ∃ c, l = sort_and_limit_ideas c 5 true := by
  unfold fetchCommand at h
  split at h
  · simp at h
  · split at h
    · injection h with h2
      exact ⟨_, h2.symm⟩
    · split at h
      · injection h with h2
        exact ⟨_, h2.symm⟩
      · split at h
        · injection h with h2
          exact ⟨_, h2.symm⟩
        · split at h
          · injection h with h2
            exact ⟨_, h2.symm⟩
          · simp at h

/-- C6: whenever `handle_command` answers with an idea list, that list is
sorted descending by timestamp and holds at most five ideas. -/
theorem handle_command_fetch_sorted_limited (parts : List String) (user_id : String)
    (store : Store) (now : Int) (l : List IdeaView)
    (h : handle_command parts user_id store now = .ideaList l) :
    List.Sorted byTimestampDesc l ∧ l.length ≤ 5 := by
  obtain ⟨c, rfl⟩ : ∃ c, l = sort_and_limit_ideas c 5 true := by
    cases parts with
    | nil => simp [handle_command] at h
    | cons command rest =>
      simp only [handle_command] at h
      split at h
      · simp at h
      · split at h
        · simp at h
        · split at h
          · split at h
            · rename_i l2 heq
              injection h with h2
              subst h2
              exact fetchCommand_shape _ _ _ _ _ heq
            · simp at h
          · split at h
            · simp at h
            · split at h
              · simp at h
              · simp at h
  exact sort_and_limit_sorted c 5

/-- Witness for C6: `fetch all` over a store of seven ideas returns exactly
five, sorted by timestamp descending. -/
theorem handle_command_fetch_sorted_limited_witness :
    handle_command ("fetch" :: "all" :: []) "u9" store7 0 = .ideaList fetch7 ∧
    List.Sorted byTimestampDesc fetch7 ∧ fetch7.length = 5 := by
  have he : handle_command ("fetch" :: "all" :: []) "u9" store7 0 = .ideaList fetch7 := by
    decide
  have hs := handle_command_fetch_sorted_limited ("fetch" :: "all" :: []) "u9" store7 0
    fetch7 he
  exact ⟨he, hs.1, by decide⟩

/-- C7 (code bug): the message `PI: ` (the trigger prefix with nothing after
it) is empty after trigger-stripping, yet `handle_message` tests only the
raw stripped text, so it stores an idea with empty title and empty
description and answers with the success message instead of the
empty-submission prompt. -/
theorem handle_message_bare_trigger_writes :
    handle_message 0 "name" [] "PI: ".toList "U1" 1000 =
      ⟨[⟨0, "U1", "name", [], [], 1000, 0, 0⟩], .submissionSuccess⟩ := by decide

/-- C8: `handle_reaction` never lets an exception escape: for every
environment (platform fetch failing or returning any messages, a message
without a timestamp, failing author or re-parse assertions, a failing vote
write) and every event, the handler returns normally; the `except` clause
maps every error of the `try` block to a logged no-op. -/
theorem handle_reaction_never_propagates (env : ReactionEnv)
    (eventType reaction user_id item_type : String) (store : Store) :
    ∃ out, handle_reaction_except env eventType reaction user_id item_type store =
      Except.ok out := by
  unfold handle_reaction_except
  split
  · exact ⟨_, rfl⟩
  · split
    · exact ⟨_, rfl⟩
    · dsimp only
      rcases htry : handleReactionTry env reaction user_id store
          (if eventType = "reaction_added" then 1 else -1) with e | p
      · exact ⟨_, rfl⟩
      · obtain ⟨s2, accessed⟩ := p
        exact ⟨_, rfl⟩

/-- C9 (code bug): the `timestamp` default of `add_idea_to_firebase` is
evaluated once at module import, so a call that omits the argument stores
the import-time wall clock, which differs from the wall clock at the moment
of the call whenever the two differ. -/
theorem add_idea_omitted_timestamp_uses_import_time (importTime callTime : Int)
    (store : Store) (user_id user_name : String) (title description : List Char)
    (hne : callTime ≠ importTime) :
    (add_idea_to_firebase importTime store user_id user_name title description none).1 =
      store ++ [⟨store.length, user_id, user_name, title, description, importTime, 0, 0⟩] ∧
    importTime ≠ callTime := by
  exact ⟨by simp [add_idea_to_firebase], hne.symm⟩

/-- Witness for C9: in a process imported at wall clock 100, a create call
at wall clock 200 that omits the timestamp stores 100, not 200. -/
theorem add_idea_omitted_timestamp_uses_import_time_witness :
    (add_idea_to_firebase 100 [] "U1" "n" [] [] none).1 =
      [⟨0, "U1", "n", [], [], 100, 0, 0⟩] ∧ (100 : Int) ≠ 200 := by
  have h := add_idea_omitted_timestamp_uses_import_time 100 200 [] "U1" "n" [] []
    (by decide)
  exact ⟨h.1.trans (by decide), h.2⟩

/-- C10: the read operations project away `user_name`: rewriting the stored
`user_name` of every record in any way is invisible to both
`get_idea_from_firebase` and `get_all_ideas_from_firebase`, whose results
carry exactly the view fields `id`, `user_id`, `title`, `description`,
`timestamp` and the vote counts. -/
theorem reads_do_not_expose_user_name (store : Store) (f : String → String)
    (idea_id : Nat) :
    get_all_ideas_from_firebase
        (store.map (fun s => { s with user_name := f s.user_name })) =
      get_all_ideas_from_firebase store ∧
    get_idea_from_firebase
        (store.map (fun s => { s with user_name := f s.user_name })) idea_id =
      get_idea_from_firebase store idea_id := by
  constructor
  · unfold get_all_ideas_from_firebase
    rw [List.map_map]
    rfl
  · unfold get_idea_from_firebase
    rw [List.find?_map, Option.map_map]
    rfl
